import Mathlib

/-!
Verification of the Rule Graph Validation & Transaction Simulation Engine
of kazt-api (`src/services/rule_service.py`, `src/models/rules.py`).

The Python engine is shallowly embedded:
* `RuleBlock.params` is a plain Python `dict`; the engine reads it with
  `params.get(key, default)`.  We model it as a record of `Option` fields,
  one per key the engine (or its request models) ever reads, so a missing
  key is `none` and a present key carries an arbitrary value of its
  declared type ("adversarial values within the type").
* Python floats (`amount`, `fee`, `max_size`, `min_size`, coordinates) are
  modelled as `Int` (think of values scaled to fixed precision); the engine
  only ever compares them, never does float arithmetic on them.
* Fallible Python code (the `ZeroDivisionError` reachable in the batching
  stage) is modelled with `Except String`.
* `random`/`uuid`/`time` effects are modelled by passing the sampled
  transaction list (and the current time) as explicit arguments.
-/

namespace Kazt

/-- `RuleBlockType` enum from `src/models/rules.py`. -/
inductive RuleBlockType where
  | ordering
  | batching
  | matching
  | priority
  | filter
deriving DecidableEq, Repr

/-- The `.value` of the Python `str`-enum member. -/
def RuleBlockType.value : RuleBlockType → String
  | .ordering => "ordering"
  | .batching => "batching"
  | .matching => "matching"
  | .priority => "priority"
  | .filter => "filter"

/-- Cosmetic 2D coordinate (`Position` model); never read by the engine.
Source coordinates are floats; modelled as integers since they are never
used in any computation. -/
structure Pos where
  x : Int
  y : Int
deriving DecidableEq, Repr

/-- The `params` dict of a `RuleBlock`.  One optional field per key that the
engine or the per-type request models mention; `none` models an absent key.
Numeric values (`max_size`, `min_size`, `weight` are floats in the source)
are modelled as `Int`; the engine only compares them. -/
structure Params where
  method : Option String := none
  tiebreaker : Option String := none
  interval_ms : Option Int := none
  max_batch : Option Int := none
  min_batch : Option Int := none
  engine : Option String := none
  partial_fill : Option Bool := none
  factor : Option String := none
  weight : Option Int := none
  blacklist : Option (List String) := none
  whitelist : Option (List String) := none
  max_size : Option Int := none
  min_size : Option Int := none
deriving DecidableEq, Repr

/-- `RuleBlock` model (`src/models/rules.py`). -/
structure RuleBlock where
  id : String
  type : RuleBlockType
  params : Params
  position : Pos := ⟨0, 0⟩
  connections : List String := []
deriving DecidableEq, Repr

/-- A sampled synthetic transaction (the dicts built in
`RuleService.simulate`).  `amount`/`fee` are floats in the source, modelled
as `Int` (scaled); the engine only compares and sorts by them. -/
structure Tx where
  tx_id : String
  sender : String
  amount : Int
  fee : Int
  timestamp : Int
deriving DecidableEq, Repr

/-- `ValidateResponse` model. -/
structure ValidateResponse where
  valid : Bool
  conflicts : List String
  warnings : List String
  cycle_detected : Bool
deriving DecidableEq, Repr

/-- `SimulationTxResult` model.  `outcome` is a `Literal` of four strings in
the source; modelled as `String`, with the vocabulary recorded in
`outcomeVocab`. -/
structure SimulationTxResult where
  tx_id : String
  outcome : String
  position : Option Int := none
  batch_id : Option Int := none
  reason : Option String := none
deriving DecidableEq, Repr

/-- The `Literal["included", "filtered", "batched", "rejected"]` vocabulary
of `SimulationTxResult.outcome`. -/
def outcomeVocab : List String := ["included", "filtered", "batched", "rejected"]

/-- `SimulationReport` model.  The counters are Python ints. -/
structure SimulationReport where
  results : List SimulationTxResult
  total_txs : Int
  processed : Int
  filtered : Int
  conflicts : List String
deriving DecidableEq, Repr

/-! ### Conflict / warning message builders

Each builder reproduces one f-string of `RuleService.validate` /
`RuleService.simulate`.  Apostrophes are written `\x27`.  `overlapMsg`
renders the overlapping-address collection with `toString` instead of the
Python `set` repr; no property depends on that rendering. -/

def danglingMsg (bid cid : String) : String :=
  "Block \x27" ++ bid ++ "\x27 connects to non-existent block \x27" ++ cid ++ "\x27"

def cycleMsg : String := "Circular dependency detected in rule chain"

def noBlocksMsg : String := "No blocks provided"

def multipleMsg (tval : String) (count : Nat) : String :=
  "Multiple \x27" ++ tval ++ "\x27 blocks (" ++ toString count ++
    "). Ensure they are in sequence, not parallel."

def proRataClobMsg : String :=
  "Pro-rata ordering is incompatible with CLOB matching engine. " ++
    "Use \x27amm\x27 or \x27rfq\x27 matching instead."

def overlapMsg (bid : String) (overlap : List String) : String :=
  "Filter block \x27" ++ bid ++ "\x27: addresses " ++ toString overlap ++
    " appear in both blacklist and whitelist"

def bothListsMsg (bid : String) : String :=
  "Filter block \x27" ++ bid ++
    "\x27: using both blacklist and whitelist. Whitelist takes priority."

def minMaxMsg (bid : String) (mn mx : Int) : String :=
  "Batching block \x27" ++ bid ++ "\x27: min_batch (" ++ toString mn ++
    ") > max_batch (" ++ toString mx ++ ")"

def intervalMsg (bid : String) (interval : Int) : String :=
  "Batching block \x27" ++ bid ++ "\x27: interval " ++ toString interval ++
    "ms is very low. May cause high load."

def maxSizeMsg (amount m : Int) : String :=
  "Amount " ++ toString amount ++ " exceeds max_size " ++ toString m

def minSizeMsg (amount m : Int) : String :=
  "Amount " ++ toString amount ++ " below min_size " ++ toString m

/-! ### Cycle detection (DFS with visited / active-recursion sets)

`graph = {b.id: b.connections for b in blocks}` is a Python dict, so for a
duplicated id the last block wins; `graph.get(node, [])` is `adjOf`.
`block_ids` is a Python `set` iterated in unspecified order; we iterate the
ids in first-occurrence order (`dedupFirst`). -/

/-- `graph.get(node, [])` where `graph = {b.id: b.connections for b in blocks}`
(dict comprehension: the last block with a given id wins). -/
def adjOf (blocks : List RuleBlock) (node : String) : List String :=
  match blocks.reverse.find? (fun b => b.id == node) with
  | some b => b.connections
  | none => []

/-- Deduplicate keeping first occurrences, carrying the already-seen
elements. -/
def dedupFirstAux {α : Type} [DecidableEq α] : List α → List α → List α
  | [], _ => []
  | x :: xs, seen =>
    if x ∈ seen then dedupFirstAux xs seen
    else x :: dedupFirstAux xs (x :: seen)

/-- Deduplicate keeping first occurrences (models iterating a Python set /
`Counter` whose insertion order is first occurrence). -/
def dedupFirst {α : Type} [DecidableEq α] (l : List α) : List α :=
  dedupFirstAux l []

/-- The `for neighbor in graph.get(node, [])` loop of `has_cycle`,
parameterized by the recursive visit of an unvisited neighbor: a visited
neighbor on the recursion stack means a cycle; otherwise continue.  The
evolved visited set is threaded; the recursion-stack push/pop is implicit
in the passing discipline. -/
def dfsNeighborsWith
    (visit : String → List String → List String → Bool × List String) :
    List String → List String → List String → Bool × List String
  | [], visited, _ => (false, visited)
  | n :: rest, visited, recStack =>
    if n ∈ visited then
      if n ∈ recStack then (true, visited)
      else dfsNeighborsWith visit rest visited recStack
    else
      match visit n visited recStack with
      | (true, v) => (true, v)
      | (false, v) => dfsNeighborsWith visit rest v recStack

/-- `has_cycle(node)`: mark `node` visited, push it on the recursion stack,
then scan its neighbors.  Fuel bounds the recursion depth (the Python code
relies on the call stack); fuel exhaustion cannot occur for the fuel chosen
in `cycleCheck`, because every nested call is on a previously unvisited
node. -/
def dfsVisit (g : String → List String) : Nat → String → List String →
    List String → Bool × List String
  | 0, _, visited, _ => (true, visited)
  | Nat.succ f, node, visited, recStack =>
    dfsNeighborsWith (fun n v r => dfsVisit g f n v r) (g node)
      (node :: visited) (node :: recStack)

/-- The `for block_id in block_ids: if block_id not in visited: if has_cycle(...)`
loop; returns whether any root call found a cycle (first detection wins,
the loop breaks). -/
def cycleLoop (g : String → List String) (fuel : Nat) :
    List String → List String → Bool
  | [], _ => false
  | i :: rest, visited =>
    if i ∈ visited then cycleLoop g fuel rest visited
    else
      match dfsVisit g fuel i visited [] with
      | (true, _) => true
      | (false, v) => cycleLoop g fuel rest v

/-- The whole DFS cycle scan of `RuleService.validate`.  The fuel is one
more than the number of node occurrences mentioned anywhere, an upper bound
on the number of distinct nodes, hence on the recursion depth. -/
def cycleCheck (blocks : List RuleBlock) : Bool :=
  let ids := dedupFirst (blocks.map RuleBlock.id)
  let fuel := (blocks.map RuleBlock.id ++ (blocks.map RuleBlock.connections).flatten).length + 1
  cycleLoop (adjOf blocks) fuel ids []

/-! ### Graph validator (`RuleService.validate`) -/

/-- Referential-integrity conflicts: a connection naming a non-existent id. -/
def danglingConflicts (blocks : List RuleBlock) : List String :=
  let ids := blocks.map RuleBlock.id
  (blocks.map (fun b =>
    (b.connections.filter (fun c => !(ids.contains c))).map
      (fun c => danglingMsg b.id c))).flatten

/-- Duplicate-type warnings (`Counter` over block types, insertion order). -/
def duplicateWarnings (blocks : List RuleBlock) : List String :=
  let types := blocks.map RuleBlock.type
  (dedupFirst types).filterMap (fun t =>
    let c := types.count t
    if c > 1 then some (multipleMsg t.value c) else none)

/-- Ordering × Matching incompatibility conflicts (`method` defaults to
FIFO, `engine` to clob). -/
def orderingMatchingConflicts (blocks : List RuleBlock) : List String :=
  ((blocks.filter (fun b => b.type == RuleBlockType.ordering)).map (fun ob =>
    (blocks.filter (fun b => b.type == RuleBlockType.matching)).filterMap
      (fun mb =>
        if ob.params.method.getD "FIFO" == "pro_rata" &&
            mb.params.engine.getD "clob" == "clob" then some proRataClobMsg
        else none))).flatten

/-- One Filter block's blacklist/whitelist check, on its two (defaulted)
lists: both non-empty and intersecting is a conflict.  The overlap is
Python `set(bl) & set(wl)`; its non-emptiness is what decides conflict vs
warning. -/
def filterOverlapConflictOf (bid : String) (bl wl : List String) :
    Option String :=
  if bl ≠ [] ∧ wl ≠ [] then
    if bl.filter (fun a => wl.contains a) ≠ [] then
      some (overlapMsg bid (bl.filter (fun a => wl.contains a)))
    else none
  else none

/-- Filter blacklist/whitelist overlap conflicts. -/
def filterOverlapConflicts (blocks : List RuleBlock) : List String :=
  blocks.filterMap (fun b =>
    if b.type == RuleBlockType.filter then
      filterOverlapConflictOf b.id (b.params.blacklist.getD [])
        (b.params.whitelist.getD [])
    else none)

/-- One Filter block's both-lists warning (non-intersecting). -/
def filterOverlapWarningOf (bid : String) (bl wl : List String) :
    Option String :=
  if bl ≠ [] ∧ wl ≠ [] then
    if bl.filter (fun a => wl.contains a) = [] then some (bothListsMsg bid)
    else none
  else none

/-- Filter blacklist/whitelist both-used warnings. -/
def filterOverlapWarnings (blocks : List RuleBlock) : List String :=
  blocks.filterMap (fun b =>
    if b.type == RuleBlockType.filter then
      filterOverlapWarningOf b.id (b.params.blacklist.getD [])
        (b.params.whitelist.getD [])
    else none)

/-- One Batching block's `min_batch > max_batch` check (defaults 1 and 50). -/
def batchingConflictOf (bid : String) (mn mx : Int) : Option String :=
  if mn > mx then some (minMaxMsg bid mn mx) else none

/-- Batching `min_batch > max_batch` conflicts. -/
def batchingConflicts (blocks : List RuleBlock) : List String :=
  blocks.filterMap (fun b =>
    if b.type == RuleBlockType.batching then
      batchingConflictOf b.id (b.params.min_batch.getD 1)
        (b.params.max_batch.getD 50)
    else none)

/-- Batching low-interval warnings (`interval_ms` defaults to 100). -/
def batchingWarnings (blocks : List RuleBlock) : List String :=
  blocks.filterMap (fun b =>
    if b.type == RuleBlockType.batching then
      if b.params.interval_ms.getD 100 < 50 then
        some (intervalMsg b.id (b.params.interval_ms.getD 100))
      else none
    else none)

/-- `RuleService.validate`.  Conflicts and warnings are accumulated in the
source's phase order; `valid = len(conflicts) == 0 and not cycle_detected`. -/
def validate (blocks : List RuleBlock) : ValidateResponse :=
  if blocks = [] then ⟨false, [noBlocksMsg], [], false⟩
  else
    let cyc := cycleCheck blocks
    let conflicts :=
      danglingConflicts blocks
        ++ (if cyc then [cycleMsg] else [])
        ++ orderingMatchingConflicts blocks
        ++ filterOverlapConflicts blocks
        ++ batchingConflicts blocks
    let warnings :=
      duplicateWarnings blocks ++ filterOverlapWarnings blocks
        ++ batchingWarnings blocks
    ⟨conflicts.isEmpty && !cyc, conflicts, warnings, cyc⟩

/-! ### Simulation executor (`RuleService.simulate`) -/

/-- `sample_txs.index(tx)`: Python `list.index`, the index of the first
element equal to `tx`.  (The absent case, which raises `ValueError` in
Python, is never reached: the engine only looks up elements of the list
itself; we return the length there.) -/
def idxOf (tx : Tx) : List Tx → Nat
  | [] => 0
  | y :: ys => if tx = y then 0 else idxOf tx ys + 1

/-- Stable insertion of `x` before the first element with a strictly smaller
or equal... placed before the first element whose fee is strictly below
`x.fee`, keeping earlier equal-fee elements first. -/
def insertFeeDesc (x : Tx) : List Tx → List Tx
  | [] => [x]
  | y :: ys => if x.fee ≥ y.fee then x :: y :: ys else y :: insertFeeDesc x ys

/-- `sorted(sample_txs, key=lambda t: t["fee"], reverse=True)`: Python's
sort is stable; a stable insertion sort by fee descending is extensionally
the same function. -/
def sortFeeDesc : List Tx → List Tx
  | [] => []
  | x :: xs => insertFeeDesc x (sortFeeDesc xs)

/-- One Filter block's verdict on `tx`: the first matching condition wins
within the block (`whitelist`, `blacklist`, `max_size`, `min_size`, in that
order), returning the filter reason.  Python truthiness: an empty list and
a zero `max_size`/`min_size` disable their condition. -/
def blockFilterVerdict (b : RuleBlock) (tx : Tx) : Option String :=
  let bl := b.params.blacklist.getD []
  let wl := b.params.whitelist.getD []
  if wl ≠ [] ∧ tx.sender ∉ wl then some "Not in whitelist"
  else if bl ≠ [] ∧ tx.sender ∈ bl then some "In blacklist"
  else
    match b.params.max_size with
    | some m =>
      if m ≠ 0 ∧ tx.amount > m then some (maxSizeMsg tx.amount m)
      else
        match b.params.min_size with
        | some m2 =>
          if m2 ≠ 0 ∧ tx.amount < m2 then some (minSizeMsg tx.amount m2)
          else none
        | none => none
    | none =>
      match b.params.min_size with
      | some m2 =>
        if m2 ≠ 0 ∧ tx.amount < m2 then some (minSizeMsg tx.amount m2)
        else none
      | none => none

/-- The Filter stage: `for block in blocks: if block.type == FILTER: ...`
with `break` on the first matching condition.  The `break` exits the whole
block loop, so the first Filter block that filters the transaction is
final; `none` means not filtered. -/
def applyFilters : List RuleBlock → Tx → Option String
  | [], _ => none
  | b :: rest, tx =>
    if b.type = RuleBlockType.filter then
      match blockFilterVerdict b tx with
      | some r => some r
      | none => applyFilters rest tx
    else applyFilters rest tx

/-- The Ordering stage: first Ordering block, `method` defaulting to FIFO;
an unrecognized method leaves the position unset. -/
def applyOrdering (blocks : List RuleBlock) (sample_txs : List Tx) (tx : Tx) :
    Option Int :=
  match blocks.find? (fun b => b.type == RuleBlockType.ordering) with
  | none => none
  | some ob =>
    let method := ob.params.method.getD "FIFO"
    if method == "FIFO" then some ((idxOf tx sample_txs : Int) + 1)
    else if method == "price_time" then
      some ((idxOf tx (sortFeeDesc sample_txs) : Int) + 1)
    else if method == "pro_rata" then some ((idxOf tx sample_txs : Int) + 1)
    else none

/-- `current_pos = position or (sample_txs.index(tx) + 1)` of the batching
stage (Python truthiness: a `None` or 0 position falls back to the 1-based
generation index). -/
def batchingCurrentPos (sample_txs : List Tx) (tx : Tx)
    (position : Option Int) : Int :=
  match position with
  | some p => if p ≠ 0 then p else (idxOf tx sample_txs : Int) + 1
  | none => (idxOf tx sample_txs : Int) + 1

/-- The Batching stage: first Batching block;
`batch_id = (current_pos - 1) // max_batch + 1` with Python floor division,
which raises `ZeroDivisionError` when `max_batch` is 0.  Returns
`(batch_id?, outcome)`. -/
def applyBatching (blocks : List RuleBlock) (sample_txs : List Tx) (tx : Tx)
    (position : Option Int) : Except String (Option Int × String) :=
  match blocks.find? (fun b => b.type == RuleBlockType.batching) with
  | none => Except.ok (none, "included")
  | some bb =>
    let max_batch := bb.params.max_batch.getD 50
    if max_batch = 0 then
      Except.error "ZeroDivisionError: integer division or modulo by zero"
    else
      Except.ok
        (some ((batchingCurrentPos sample_txs tx position - 1).fdiv max_batch + 1),
          "batched")

/-- The per-transaction body of the simulation loop: filter, then (if not
filtered) ordering and batching. -/
def processTx (blocks : List RuleBlock) (sample_txs : List Tx) (tx : Tx) :
    Except String SimulationTxResult :=
  match applyFilters blocks tx with
  | some reason => Except.ok ⟨tx.tx_id, "filtered", none, none, some reason⟩
  | none =>
    match applyBatching blocks sample_txs tx (applyOrdering blocks sample_txs tx) with
    | Except.error e => Except.error e
    | Except.ok (batch_id, outcome) =>
      Except.ok ⟨tx.tx_id, outcome, applyOrdering blocks sample_txs tx, batch_id, none⟩

/-- The `for tx in sample_txs` loop: process each transaction in order,
collecting the appended results; the first uncaught Python exception aborts
the whole call. -/
def processAll (f : Tx → Except String SimulationTxResult) :
    List Tx → Except String (List SimulationTxResult)
  | [] => Except.ok []
  | t :: ts =>
    match f t with
    | Except.error e => Except.error e
    | Except.ok r =>
      match processAll f ts with
      | Except.error e => Except.error e
      | Except.ok rs => Except.ok (r :: rs)

/-- `RuleService.simulate`.  `num_txs` is the requested `sample_txs` count
and `sample_txs` the list the sampler generated (passed explicitly; the
generation loop guarantees `sample_txs.length = num_txs`).  On an invalid
graph the report is returned before any transaction is sampled, so the
result does not depend on `sample_txs` there.  The Python loop counts
filtered transactions as it goes; a transaction is counted exactly when its
appended result has outcome `"filtered"`, so the count equals the number of
`"filtered"` results. -/
def simulate (blocks : List RuleBlock) (num_txs : Nat) (sample_txs : List Tx) :
    Except String SimulationReport :=
  let validation := validate blocks
  if !validation.valid then
    Except.ok ⟨[], (num_txs : Int), 0, 0, validation.conflicts⟩
  else
    match processAll (processTx blocks sample_txs) sample_txs with
    | Except.error e => Except.error e
    | Except.ok results =>
      let filtered_count := (results.filter (fun r => r.outcome == "filtered")).length
      Except.ok ⟨results, (num_txs : Int), (num_txs : Int) - (filtered_count : Int),
        (filtered_count : Int), []⟩

/-! ### Export formatter (`RuleService.export_rules`) -/

/-- The dict produced by `RuleBlock.model_dump()`: the enum member becomes
its string value, everything else is carried over. -/
structure RuleBlockDump where
  id : String
  type : String
  params : Params
  position : Pos
  connections : List String
deriving DecidableEq, Repr

def RuleBlock.model_dump (b : RuleBlock) : RuleBlockDump :=
  ⟨b.id, b.type.value, b.params, b.position, b.connections⟩

/-- Parsing a type string back into the enum (what pydantic does when a
dumped block is validated again). -/
def RuleBlockType.ofValue (s : String) : Option RuleBlockType :=
  if s == "ordering" then some .ordering
  else if s == "batching" then some .batching
  else if s == "matching" then some .matching
  else if s == "priority" then some .priority
  else if s == "filter" then some .filter
  else none

/-- Re-parsing a dumped block (pydantic `RuleBlock.model_validate`). -/
def RuleBlockDump.model_validate (d : RuleBlockDump) : Option RuleBlock :=
  (RuleBlockType.ofValue d.type).map
    (fun t => ⟨d.id, t, d.params, d.position, d.connections⟩)

structure ExportMetadata where
  generated_by : String
  generated_at : Int
  block_count : Nat
deriving DecidableEq, Repr

structure ExportJsonData where
  version : String
  ace_rules : List RuleBlockDump
  metadata : ExportMetadata
deriving DecidableEq, Repr

/-- The `data` entry of the export dict: a JSON envelope, an Anchor code
string, or `None` for an unknown format. -/
inductive ExportPayload where
  | jsonData (d : ExportJsonData)
  | anchorData (code : String)
  | nullData
deriving DecidableEq, Repr

structure ExportResult where
  format : String
  data : ExportPayload
deriving DecidableEq, Repr

/-- `RuleService._generate_anchor_code`: the fixed leading lines.  Literal
braces are written `\x7b`/`\x7d`. -/
def anchorHeaderLines (blockCount : Nat) : List String :=
  [ "use anchor_lang::prelude::*;",
    "",
    "#[program]",
    "pub mod ace_rules \x7b",
    "    use super::*;",
    "",
    "    pub fn initialize_rules(ctx: Context<InitializeRules>, rules_data: Vec<u8>) -> Result<()> \x7b",
    "        let rules_account = &mut ctx.accounts.rules_account;",
    "        rules_account.authority = ctx.accounts.authority.key();",
    "        rules_account.rules_data = rules_data;",
    "        rules_account.block_count = " ++ toString blockCount ++ " as u32;",
    "        rules_account.created_at = Clock::get()?.unix_timestamp;",
    "        Ok(())",
    "    \x7d" ]

/-- Per-block instruction fragments of `_generate_anchor_code`. -/
def anchorBlockLines (b : RuleBlock) : List String :=
  if b.type = RuleBlockType.ordering then
    let method := b.params.method.getD "FIFO"
    [ "",
      "    // Ordering: " ++ method,
      "    pub fn set_ordering(ctx: Context<UpdateRules>, method: OrderingMethod) -> Result<()> \x7b",
      "        let rules = &mut ctx.accounts.rules_account;",
      "        rules.ordering_method = method;",
      "        Ok(())",
      "    \x7d" ]
  else if b.type = RuleBlockType.batching then
    let interval := b.params.interval_ms.getD 100
    [ "",
      "    // Batching: interval=" ++ toString interval ++ "ms",
      "    pub fn set_batching(ctx: Context<UpdateRules>, interval_ms: u32, max_batch: u32) -> Result<()> \x7b",
      "        let rules = &mut ctx.accounts.rules_account;",
      "        rules.batch_interval = interval_ms;",
      "        rules.max_batch_size = max_batch;",
      "        Ok(())",
      "    \x7d" ]
  else if b.type = RuleBlockType.filter then
    [ "",
      "    // Filter block",
      "    pub fn set_filter(ctx: Context<UpdateRules>, blacklist: Vec<Pubkey>, whitelist: Vec<Pubkey>) -> Result<()> \x7b",
      "        let rules = &mut ctx.accounts.rules_account;",
      "        rules.blacklist = blacklist;",
      "        rules.whitelist = whitelist;",
      "        Ok(())",
      "    \x7d" ]
  else []

/-- The fixed trailing lines of `_generate_anchor_code`. -/
def anchorFooterLines : List String :=
  [ "\x7d",
    "",
    "#[derive(AnchorSerialize, AnchorDeserialize, Clone, PartialEq, Eq)]",
    "pub enum OrderingMethod \x7b",
    "    Fifo,",
    "    PriceTime,",
    "    ProRata,",
    "\x7d",
    "",
    "#[account]",
    "pub struct RulesAccount \x7b",
    "    pub authority: Pubkey,",
    "    pub rules_data: Vec<u8>,",
    "    pub block_count: u32,",
    "    pub ordering_method: OrderingMethod,",
    "    pub batch_interval: u32,",
    "    pub max_batch_size: u32,",
    "    pub blacklist: Vec<Pubkey>,",
    "    pub whitelist: Vec<Pubkey>,",
    "    pub created_at: i64,",
    "\x7d" ]

/-- `RuleService._generate_anchor_code`. -/
def generateAnchorCode (blocks : List RuleBlock) : String :=
  String.intercalate "\n"
    (anchorHeaderLines blocks.length
      ++ (blocks.map anchorBlockLines).flatten
      ++ anchorFooterLines)

/-! ### Auxiliary characterizations of the filter stage -/

/-- The verdict of the first Filter block whose condition matches the
transaction ("first matching Filter block wins"); `none` when no Filter
block matches.  Used to characterize the implemented filter stage. -/
def firstFilterVerdict (blocks : List RuleBlock) (tx : Tx) : Option String :=
  match blocks.find? (fun b =>
      b.type == RuleBlockType.filter && (blockFilterVerdict b tx).isSome) with
  | some b => blockFilterVerdict b tx
  | none => none

/-- The filter-stage semantics the specification describes, stated from the
spec's words for comparison with the implementation: "the loop still visits
all Filter blocks — so a later Filter block's verdict (filtered or not)
overwrites an earlier block's verdict.  The transaction's final filter
outcome is whatever the last Filter block produced."  That is: the verdict
of the last Filter block alone. -/
def specLastFilterVerdict (blocks : List RuleBlock) (tx : Tx) : Option String :=
  match (blocks.filter (fun b => b.type == RuleBlockType.filter)).getLast? with
  | some b => blockFilterVerdict b tx
  | none => none

/-! ### Params-dict constructors for concrete inputs -/

/-- The empty params dict `{}`. -/
def emptyParams : Params :=
  ⟨none, none, none, none, none, none, none, none, none, none, none, none, none⟩

/-- A params dict holding (only) batching keys. -/
def batchingParams (interval mx mn : Option Int) : Params :=
  ⟨none, none, interval, mx, mn, none, none, none, none, none, none, none, none⟩

/-- A params dict holding (only) filter keys. -/
def filterParams (bl wl : Option (List String)) (mx mn : Option Int) : Params :=
  ⟨none, none, none, none, none, none, none, none, none, bl, wl, mx, mn⟩

/-- A params dict holding (only) an ordering method. -/
def orderingParams (m : Option String) : Params :=
  ⟨m, none, none, none, none, none, none, none, none, none, none, none, none⟩

/-- `RuleService.export_rules`.  `now` models `int(time.time())`. -/
def export_rules (blocks : List RuleBlock) (fmt : String) (now : Int) :
    ExportResult :=
  if fmt == "json" then
    ⟨"json",
      ExportPayload.jsonData
        ⟨"1.0", blocks.map RuleBlock.model_dump, ⟨"kazt", now, blocks.length⟩⟩⟩
  else if fmt == "anchor" then
    ⟨"anchor", ExportPayload.anchorData (generateAnchorCode blocks)⟩
  else ⟨fmt, ExportPayload.nullData⟩

/-! ## Helper lemmas -/

/-- `processAll` succeeds exactly when every transaction is processed
successfully, pairing transactions with their results positionally. -/
theorem processAll_ok_iff (f : Tx → Except String SimulationTxResult) :
    ∀ (l : List Tx) (rs : List SimulationTxResult),
      processAll f l = Except.ok rs ↔
        List.Forall₂ (fun t r => f t = Except.ok r) l rs := by
  intro l
  induction l with
  | nil =>
    intro rs
    constructor
    · intro h
      cases rs with
      | nil => exact List.Forall₂.nil
      | cons r rs => simp [processAll] at h
    · intro h
      cases h
      rfl
  | cons t ts ih =>
    intro rs
    constructor
    · intro h
      cases hft : f t with
      | error e => simp [processAll, hft] at h
      | ok r =>
        cases hrest : processAll f ts with
        | error e => simp [processAll, hft, hrest] at h
        | ok rs' =>
          have : rs = r :: rs' := by
            have h' := h
            simp [processAll, hft, hrest] at h'
            exact h'.symm
          subst this
          exact List.Forall₂.cons hft ((ih rs').mp hrest)
    · intro h
      cases h with
      | cons hfr hrest =>
        simp [processAll, hfr, (ih _).mpr hrest]

/-- Pointwise access to a `Forall₂`. -/
theorem forall2_get {α β : Type} {R : α → β → Prop} :
    ∀ {l : List α} {rs : List β}, List.Forall₂ R l rs →
      ∀ i (h1 : i < l.length) (h2 : i < rs.length), R l[i] rs[i] := by
  intro l rs h
  induction h with
  | nil => intro i h1 _; exact absurd h1 (by simp)
  | cons hR _ ih =>
    intro i h1 h2
    cases i with
    | zero => simpa using hR
    | succ j =>
      simp only [List.getElem_cons_succ]
      exact ih j (by simpa using h1) (by simpa using h2)

/-- Every element on the right of a `Forall₂` is related to some element on
the left. -/
theorem forall2_mem_right {α β : Type} {R : α → β → Prop} :
    ∀ {l : List α} {rs : List β}, List.Forall₂ R l rs →
      ∀ r ∈ rs, ∃ t ∈ l, R t r := by
  intro l rs h
  induction h with
  | nil => intro r hr; simp at hr
  | cons hR _ ih =>
    intro r hr
    rcases List.mem_cons.mp hr with rfl | hr'
    · exact ⟨_, List.mem_cons_self _ _, hR⟩
    · obtain ⟨t, ht, hRt⟩ := ih r hr'
      exact ⟨t, List.mem_cons_of_mem _ ht, hRt⟩

/-- If every transaction processes successfully, the whole loop does. -/
theorem processAll_ok_of_forall (f : Tx → Except String SimulationTxResult) :
    ∀ (l : List Tx), (∀ t ∈ l, ∃ r, f t = Except.ok r) →
      ∃ rs, processAll f l = Except.ok rs := by
  intro l
  induction l with
  | nil => exact fun _ => ⟨[], rfl⟩
  | cons t ts ih =>
    intro h
    obtain ⟨r, hr⟩ := h t (List.mem_cons_self _ _)
    obtain ⟨rs, hrs⟩ := ih (fun t' ht' => h t' (List.mem_cons_of_mem _ ht'))
    exact ⟨r :: rs, by simp [processAll, hr, hrs]⟩

/-- `list.index` of the `i`-th element of a duplicate-free list is `i`. -/
theorem idxOf_nodup :
    ∀ (txs : List Tx), txs.Nodup → ∀ i (hi : i < txs.length),
      idxOf txs[i] txs = i := by
  intro txs
  induction txs with
  | nil => intro _ i hi; exact absurd hi (by simp)
  | cons t ts ih =>
    intro hnd i hi
    cases i with
    | zero => simp [idxOf]
    | succ j =>
      have hj : j < ts.length := by simpa using hi
      have hne : ts[j] ≠ t := by
        intro he
        exact (List.nodup_cons.mp hnd).1 (he ▸ List.getElem_mem hj)
      simp only [List.getElem_cons_succ, idxOf, if_neg hne]
      rw [ih (List.nodup_cons.mp hnd).2 j hj]

/-- The ordering stage never produces position 0 (it is 1-based). -/
theorem applyOrdering_ne_some_zero (blocks : List RuleBlock)
    (sample_txs : List Tx) (tx : Tx) :
    applyOrdering blocks sample_txs tx ≠ some 0 := by
  unfold applyOrdering
  cases blocks.find? (fun b => b.type == RuleBlockType.ordering) with
  | none => simp
  | some ob =>
    simp only []
    split
    · intro h
      have := Option.some.inj h
      omega
    · split
      · intro h
        have := Option.some.inj h
        omega
      · split
        · intro h
          have := Option.some.inj h
          omega
        · simp

/-- The implemented filter stage is "first matching Filter block wins": it
equals the verdict of the first Filter block whose condition matches, and
is `none` when no Filter block matches. -/
theorem applyFilters_eq_firstFilterVerdict :
    ∀ (blocks : List RuleBlock) (tx : Tx),
      applyFilters blocks tx = firstFilterVerdict blocks tx := by
  intro blocks tx
  induction blocks with
  | nil => rfl
  | cons b rest ih =>
    by_cases hb : b.type = RuleBlockType.filter
    · cases hv : blockFilterVerdict b tx with
      | some r =>
        simp [applyFilters, firstFilterVerdict, List.find?_cons, hb, hv]
      | none =>
        simp [applyFilters, firstFilterVerdict, List.find?_cons, hb, hv]
        exact ih
    · simp [applyFilters, firstFilterVerdict, List.find?_cons, hb]
      exact ih

/-- Shape of a successful batching stage: without a Batching block the
outcome stays `"included"` with no batch id; with one (and a non-zero
`max_batch`) the outcome becomes `"batched"` with some batch id. -/
theorem applyBatching_ok_cases (blocks : List RuleBlock) (sample_txs : List Tx)
    (tx : Tx) (position : Option Int) (bo : Option Int × String)
    (h : applyBatching blocks sample_txs tx position = Except.ok bo) :
    (blocks.find? (fun b => b.type == RuleBlockType.batching) = none ∧
      bo = (none, "included")) ∨
    (∃ bb, blocks.find? (fun b => b.type == RuleBlockType.batching) = some bb ∧
      ∃ k, bo = (some k, "batched")) := by
  unfold applyBatching at h
  cases hf : blocks.find? (fun b => b.type == RuleBlockType.batching) with
  | none =>
    rw [hf] at h
    exact Or.inl ⟨rfl, (Except.ok.inj h).symm⟩
  | some bb =>
    rw [hf] at h
    simp only [] at h
    split at h
    · exact absurd h (by simp)
    · exact Or.inr ⟨bb, rfl, _, (Except.ok.inj h).symm⟩

/-- Shape of a successful per-transaction result: either filtered (with the
filter reason, no position, no batch), or unfiltered with the ordering
position, the batching verdict and no reason. -/
theorem processTx_ok_cases (blocks : List RuleBlock) (sample_txs : List Tx)
    (tx : Tx) (res : SimulationTxResult)
    (h : processTx blocks sample_txs tx = Except.ok res) :
    (∃ r, applyFilters blocks tx = some r ∧
      res = ⟨tx.tx_id, "filtered", none, none, some r⟩) ∨
    (applyFilters blocks tx = none ∧
      ∃ bo, applyBatching blocks sample_txs tx (applyOrdering blocks sample_txs tx) =
          Except.ok bo ∧
        res = ⟨tx.tx_id, bo.2, applyOrdering blocks sample_txs tx, bo.1, none⟩) := by
  unfold processTx at h
  split at h
  next r hf => exact Or.inl ⟨r, hf, (Except.ok.inj h).symm⟩
  next hf =>
    split at h
    next e hb => exact absurd h (by simp)
    next bid oc hb =>
      exact Or.inr ⟨hf, (bid, oc), hb, (Except.ok.inj h).symm⟩

/-- Re-validating a dumped block restores the block. -/
theorem model_validate_model_dump (b : RuleBlock) :
    b.model_dump.model_validate = some b := by
  cases b with
  | mk bid bt bp bpos bconn =>
    cases bt <;> rfl

/-- Re-parsing a dumped block list element by element (what a caller does
with the `ace_rules` entry of the JSON envelope). -/
def validateDumpList : List RuleBlockDump → Option (List RuleBlock)
  | [] => some []
  | d :: ds =>
    match d.model_validate with
    | none => none
    | some b =>
      match validateDumpList ds with
      | none => none
      | some bs => some (b :: bs)

/-- Re-parsing a dumped block list restores the block list. -/
theorem validateDumpList_dump :
    ∀ (blocks : List RuleBlock),
      validateDumpList (blocks.map RuleBlock.model_dump) = some blocks := by
  intro blocks
  induction blocks with
  | nil => rfl
  | cons b rest ih =>
    simp [validateDumpList, model_validate_model_dump, ih]

/-- On an invalid graph, `simulate` short-circuits to the empty report with
the validator's conflicts, independently of any sampled transactions. -/
theorem simulate_invalid_eq (blocks : List RuleBlock) (n : Nat) (txs : List Tx)
    (hval : (validate blocks).valid = false) :
    simulate blocks n txs =
      Except.ok ⟨[], (n : Int), 0, 0, (validate blocks).conflicts⟩ := by
  simp [simulate, hval]

/-- On a valid graph, a successful `simulate` run is the aggregation of the
per-transaction loop. -/
theorem simulate_ok_valid (blocks : List RuleBlock) (n : Nat) (txs : List Tx)
    (r : SimulationReport) (hval : (validate blocks).valid = true)
    (hsim : simulate blocks n txs = Except.ok r) :
    ∃ rs, processAll (processTx blocks txs) txs = Except.ok rs ∧
      r = ⟨rs, (n : Int),
        (n : Int) - ((rs.filter (fun x => x.outcome == "filtered")).length : Int),
        ((rs.filter (fun x => x.outcome == "filtered")).length : Int), []⟩ := by
  simp only [simulate, hval, Bool.not_true, Bool.false_eq_true, if_false] at hsim
  cases hp : processAll (processTx blocks txs) txs with
  | error e => rw [hp] at hsim; exact absurd hsim (by simp)
  | ok rs =>
    rw [hp] at hsim
    exact ⟨rs, rfl, (Except.ok.inj hsim).symm⟩

/-! ## Claim theorems -/

/-- A well-typed but adversarial input for C2: a single Batching block whose
params dict carries `min_batch = 0` and `max_batch = 0`.  The validator's
`min_batch > max_batch` check does not fire (0 > 0 is false), so the graph
is valid and simulation proceeds to the batching stage. -/
def c2Blocks : List RuleBlock :=
  [⟨"bat1", RuleBlockType.batching, batchingParams none (some 0) (some 0), ⟨0, 0⟩, []⟩]

def c2Tx : Tx := ⟨"t1", "s1", 100, 5, 0⟩

/-- **C2** (code_bug): the claim says validate/simulate/export never raise
on well-typed input, with out-of-range params such as `max_batch = 0`
handled by defaults or reported conflicts.  The code violates this: with
`min_batch = 0, max_batch = 0` the graph validates as correct, and the
batching stage of `simulate` evaluates `(current_pos - 1) // max_batch`,
raising `ZeroDivisionError`.  This theorem evaluates the embedded code at
the failing input. -/
theorem c2_zero_max_batch_crashes :
    (validate c2Blocks).valid = true ∧
    simulate c2Blocks 1 [c2Tx] =
      Except.error "ZeroDivisionError: integer division or modulo by zero" :=
  ⟨by decide, rfl⟩

/-- **C3** (confirmed): on any block list the validator rejects, `simulate`
returns the empty report with `total_txs = sample_txs`, zero processed and
filtered counters, and exactly the validator's conflicts — and the result
is independent of whatever transactions would have been sampled (the
quantification over `txs`), i.e. no sample transactions are consumed on
this path. -/
theorem c3_invalid_short_circuit (blocks : List RuleBlock) (n : Nat)
    (txs : List Tx) (hval : (validate blocks).valid = false) :
    simulate blocks n txs =
      Except.ok ⟨[], (n : Int), 0, 0, (validate blocks).conflicts⟩ :=
  simulate_invalid_eq blocks n txs hval

theorem c3_witness :
    (validate ([] : List RuleBlock)).valid = false ∧
    simulate ([] : List RuleBlock) 5 [] =
      Except.ok ⟨[], 5, 0, 0, (validate ([] : List RuleBlock)).conflicts⟩ :=
  ⟨by decide, c3_invalid_short_circuit [] 5 [] (by decide)⟩

/-- A Batching block with `interval_ms = 20` (C4's concrete example). -/
def c4Block : RuleBlock :=
  ⟨"bat1", RuleBlockType.batching, batchingParams (some 20) none none, ⟨0, 0⟩, []⟩

/-- **C4** (confirmed): for every block list,
`valid = conflicts.isEmpty && !cycle_detected` — warnings never affect
validity; concretely, a Batching block with `interval_ms = 20` produces the
high-load warning, no conflicts, and stays valid. -/
theorem c4_valid_iff_no_conflicts_no_cycle :
    (∀ blocks : List RuleBlock,
      (validate blocks).valid =
        ((validate blocks).conflicts.isEmpty && !(validate blocks).cycle_detected)) ∧
    (validate [c4Block]).valid = true ∧
    (validate [c4Block]).conflicts = [] ∧
    (validate [c4Block]).warnings = [intervalMsg "bat1" 20] := by
  refine ⟨?_, by decide, by decide, by decide⟩
  intro blocks
  unfold validate
  split
  · rfl
  · rfl

/-- **C8** (confirmed): JSON export wraps the dumped block list unchanged in
an envelope with the `json` format tag, schema version `1.0`, and metadata
whose `block_count` is the number of blocks; re-parsing the `ace_rules`
entry restores the original block list (round trip). -/
theorem c8_export_json_roundtrip (blocks : List RuleBlock) (now : Int) :
    export_rules blocks "json" now =
      ⟨"json", ExportPayload.jsonData
        ⟨"1.0", blocks.map RuleBlock.model_dump, ⟨"kazt", now, blocks.length⟩⟩⟩ ∧
    validateDumpList (blocks.map RuleBlock.model_dump) = some blocks :=
  ⟨rfl, validateDumpList_dump blocks⟩

/-- **C9** (confirmed): no simulation result ever carries the outcome
`"rejected"`: every produced outcome is `"included"`, `"filtered"` or
`"batched"`, even though `"rejected"` belongs to the declared vocabulary. -/
theorem c9_no_rejected_outcome (blocks : List RuleBlock) (n : Nat)
    (txs : List Tx) (r : SimulationReport)
    (hsim : simulate blocks n txs = Except.ok r) :
    ∀ res ∈ r.results, res.outcome ∈ outcomeVocab ∧ res.outcome ≠ "rejected" := by
  intro res hres
  by_cases hval : (validate blocks).valid = true
  · obtain ⟨rs, hrs, rfl⟩ := simulate_ok_valid blocks n txs r hval hsim
    obtain ⟨t, _, hpt⟩ :=
      forall2_mem_right ((processAll_ok_iff _ txs rs).mp hrs) res hres
    rcases processTx_ok_cases _ _ _ _ hpt with ⟨rr, _, rfl⟩ | ⟨_, bo, hb, rfl⟩
    · exact ⟨(by decide : "filtered" ∈ outcomeVocab),
        (by decide : ("filtered" : String) ≠ "rejected")⟩
    · rcases applyBatching_ok_cases _ _ _ _ _ hb with ⟨_, rfl⟩ | ⟨bb, _, k, rfl⟩
      · exact ⟨(by decide : "included" ∈ outcomeVocab),
          (by decide : ("included" : String) ≠ "rejected")⟩
      · exact ⟨(by decide : "batched" ∈ outcomeVocab),
          (by decide : ("batched" : String) ≠ "rejected")⟩
  · have hval' : (validate blocks).valid = false := by
      cases h : (validate blocks).valid
      · rfl
      · exact absurd h hval
    rw [simulate_invalid_eq blocks n txs hval'] at hsim
    have : r.results = [] := by
      rw [← (Except.ok.inj hsim)]
    rw [this] at hres
    exact absurd hres (by simp)

def c9Blocks : List RuleBlock :=
  [⟨"o1", RuleBlockType.ordering, orderingParams (some "FIFO"), ⟨0, 0⟩, []⟩]

def c9Tx : Tx := ⟨"t1", "s1", 100, 5, 0⟩

theorem c9_witness :
    (⟨"t1", "included", some 1, none, none⟩ : SimulationTxResult).outcome ∈ outcomeVocab ∧
    (⟨"t1", "included", some 1, none, none⟩ : SimulationTxResult).outcome ≠ "rejected" :=
  c9_no_rejected_outcome c9Blocks 1 [c9Tx]
    ⟨[⟨"t1", "included", some 1, none, none⟩], 1, 1, 0, []⟩ rfl
    ⟨"t1", "included", some 1, none, none⟩ (by decide)

/-- **C10** (confirmed): on a valid graph, a successful `simulate` run
produces as many results as `total_txs` with `processed + filtered =
total_txs`, every `"filtered"` result has no position, no batch id and a
present reason, and every `"included"` or `"batched"` result has no
reason. -/
theorem c10_result_invariants (blocks : List RuleBlock) (n : Nat)
    (txs : List Tx) (r : SimulationReport)
    (hval : (validate blocks).valid = true) (hlen : txs.length = n)
    (hsim : simulate blocks n txs = Except.ok r) :
    ((r.results.length : Int) = r.total_txs ∧
      r.processed + r.filtered = r.total_txs) ∧
    ∀ res ∈ r.results,
      (res.outcome = "filtered" →
        res.position = none ∧ res.batch_id = none ∧ res.reason.isSome = true) ∧
      ((res.outcome = "included" ∨ res.outcome = "batched") →
        res.reason = none) := by
  obtain ⟨rs, hrs, rfl⟩ := simulate_ok_valid blocks n txs r hval hsim
  constructor
  · constructor
    · have hlen2 : txs.length = rs.length :=
        ((processAll_ok_iff _ txs rs).mp hrs).length_eq
      simp only []
      omega
    · simp only []
      omega
  · intro res hres
    obtain ⟨t, _, hpt⟩ :=
      forall2_mem_right ((processAll_ok_iff _ txs rs).mp hrs) res hres
    rcases processTx_ok_cases _ _ _ _ hpt with ⟨rr, _, rfl⟩ | ⟨_, bo, hb, rfl⟩
    · refine ⟨fun _ => ⟨rfl, rfl, rfl⟩, fun h => ?_⟩
      rcases h with h | h
      · exact absurd h (by decide : ¬("filtered" : String) = "included")
      · exact absurd h (by decide : ¬("filtered" : String) = "batched")
    · rcases applyBatching_ok_cases _ _ _ _ _ hb with ⟨_, rfl⟩ | ⟨bb, _, k, rfl⟩
      · exact ⟨fun h =>
          absurd h (by decide : ¬("included" : String) = "filtered"),
          fun _ => rfl⟩
      · exact ⟨fun h =>
          absurd h (by decide : ¬("batched" : String) = "filtered"),
          fun _ => rfl⟩

def c10Blocks : List RuleBlock :=
  [⟨"f1", RuleBlockType.filter, filterParams none (some ["good"]) none none, ⟨0, 0⟩, []⟩]

def c10Txs : List Tx := [⟨"t1", "good", 100, 5, 0⟩, ⟨"t2", "bad", 100, 5, 0⟩]

theorem c10_witness :
    (((⟨[⟨"t1", "included", none, none, none⟩,
          ⟨"t2", "filtered", none, none, some "Not in whitelist"⟩],
        2, 1, 1, []⟩ : SimulationReport).results.length : Int) =
        (⟨[⟨"t1", "included", none, none, none⟩,
            ⟨"t2", "filtered", none, none, some "Not in whitelist"⟩],
          2, 1, 1, []⟩ : SimulationReport).total_txs ∧
      (⟨[⟨"t1", "included", none, none, none⟩,
          ⟨"t2", "filtered", none, none, some "Not in whitelist"⟩],
        2, 1, 1, []⟩ : SimulationReport).processed +
          (⟨[⟨"t1", "included", none, none, none⟩,
              ⟨"t2", "filtered", none, none, some "Not in whitelist"⟩],
            2, 1, 1, []⟩ : SimulationReport).filtered =
        (⟨[⟨"t1", "included", none, none, none⟩,
            ⟨"t2", "filtered", none, none, some "Not in whitelist"⟩],
          2, 1, 1, []⟩ : SimulationReport).total_txs) ∧
    ∀ res ∈ (⟨[⟨"t1", "included", none, none, none⟩,
        ⟨"t2", "filtered", none, none, some "Not in whitelist"⟩],
      2, 1, 1, []⟩ : SimulationReport).results,
      (res.outcome = "filtered" →
        res.position = none ∧ res.batch_id = none ∧ res.reason.isSome = true) ∧
      ((res.outcome = "included" ∨ res.outcome = "batched") →
        res.reason = none) :=
  c10_result_invariants c10Blocks 2 c10Txs
    ⟨[⟨"t1", "included", none, none, none⟩,
      ⟨"t2", "filtered", none, none, some "Not in whitelist"⟩], 2, 1, 1, []⟩
    (by decide) (by decide) rfl

/-- On a one-block list whose block is an Ordering block with (defaulted)
method FIFO, a transaction is never filtered, gets position
`list.index + 1`, and keeps outcome `"included"`. -/
theorem processTx_single_ordering (b : RuleBlock)
    (hb : b.type = RuleBlockType.ordering)
    (hm : b.params.method.getD "FIFO" = "FIFO") (txs : List Tx) (tx : Tx) :
    processTx [b] txs tx =
      Except.ok ⟨tx.tx_id, "included", some ((idxOf tx txs : Int) + 1),
        none, none⟩ := by
  have hf : applyFilters [b] tx = none := by
    simp [applyFilters, hb]
  have ho : applyOrdering [b] txs tx = some ((idxOf tx txs : Int) + 1) := by
    simp [applyOrdering, List.find?_cons, hb, hm]
  have hbt : applyBatching [b] txs tx (some ((idxOf tx txs : Int) + 1)) =
      Except.ok (none, "included") := by
    simp [applyBatching, List.find?_cons, hb]
  simp [processTx, hf, ho, hbt]

/-- With no Batching block, a non-filtered transaction keeps outcome
`"included"` and gets no batch id. -/
theorem processTx_no_batching (blocks : List RuleBlock) (txs : List Tx)
    (tx : Tx) (hnf : applyFilters blocks tx = none)
    (hnone : blocks.find? (fun b => b.type == RuleBlockType.batching) = none) :
    processTx blocks txs tx =
      Except.ok ⟨tx.tx_id, "included", applyOrdering blocks txs tx, none, none⟩ := by
  simp [processTx, hnf, applyBatching, hnone]

/-- With a first Batching block whose `max_batch` is 0, a non-filtered
transaction raises `ZeroDivisionError`. -/
theorem processTx_batching_zero (blocks : List RuleBlock) (txs : List Tx)
    (tx : Tx) (hnf : applyFilters blocks tx = none) (bb : RuleBlock)
    (hbb : blocks.find? (fun b => b.type == RuleBlockType.batching) = some bb)
    (hz : bb.params.max_batch.getD 50 = 0) :
    processTx blocks txs tx =
      Except.error "ZeroDivisionError: integer division or modulo by zero" := by
  simp [processTx, hnf, applyBatching, hbb, hz]

/-- With a first Batching block whose `max_batch` is non-zero, a
non-filtered transaction is batched with
`batch_id = (current_pos - 1) // max_batch + 1`. -/
theorem processTx_batching (blocks : List RuleBlock) (txs : List Tx)
    (tx : Tx) (hnf : applyFilters blocks tx = none) (bb : RuleBlock)
    (hbb : blocks.find? (fun b => b.type == RuleBlockType.batching) = some bb)
    (hz : ¬ bb.params.max_batch.getD 50 = 0) :
    processTx blocks txs tx =
      Except.ok ⟨tx.tx_id, "batched", applyOrdering blocks txs tx,
        some ((batchingCurrentPos txs tx (applyOrdering blocks txs tx) - 1).fdiv
          (bb.params.max_batch.getD 50) + 1), none⟩ := by
  simp [processTx, hnf, applyBatching, hbb, hz]

/-- On a duplicate-free sample list, `current_pos` of the `i`-th
transaction is its ordering position if set, else `i + 1` (1-based
generation index); the ordering stage never sets position 0. -/
theorem batchingCurrentPos_eq_getD (blocks : List RuleBlock) (txs : List Tx)
    (hnd : txs.Nodup) (i : Nat) (hi : i < txs.length) :
    batchingCurrentPos txs txs[i] (applyOrdering blocks txs txs[i]) =
      (applyOrdering blocks txs txs[i]).getD ((i : Int) + 1) := by
  cases ho : applyOrdering blocks txs txs[i] with
  | none => simp [batchingCurrentPos, idxOf_nodup txs hnd i hi]
  | some p =>
    have hp0 : p ≠ 0 := fun h0 =>
      applyOrdering_ne_some_zero blocks txs txs[i] (h0 ▸ ho)
    simp [batchingCurrentPos, hp0]

/-- **C6** (confirmed): a valid single-block graph with a FIFO Ordering
block and five (pairwise distinct) sampled transactions yields exactly five
results whose positions are `1..5` in generation order, all `"included"`.
(Distinctness reflects the sampler's fresh random ids; Python `list.index`
finds the first equal element.) -/
theorem c6_fifo_positions (b : RuleBlock) (txs : List Tx)
    (hb : b.type = RuleBlockType.ordering)
    (hm : b.params.method.getD "FIFO" = "FIFO")
    (hval : (validate [b]).valid = true)
    (hnd : txs.Nodup) (hlen : txs.length = 5) :
    ∃ r, simulate [b] 5 txs = Except.ok r ∧ r.results.length = 5 ∧
      ∀ i (hi : i < 5), ∃ (hri : i < r.results.length),
        r.results[i].position = some ((i : Int) + 1) ∧
        r.results[i].outcome = "included" := by
  obtain ⟨rs, hrs⟩ := processAll_ok_of_forall (processTx [b] txs) txs
    (fun t _ => ⟨_, processTx_single_ordering b hb hm txs t⟩)
  have hfa := (processAll_ok_iff _ txs rs).mp hrs
  have hlen2 := hfa.length_eq
  refine ⟨⟨rs, (5 : Int),
    (5 : Int) - ((rs.filter (fun x => x.outcome == "filtered")).length : Int),
    ((rs.filter (fun x => x.outcome == "filtered")).length : Int), []⟩,
    ?_, by simp only []; omega, ?_⟩
  · simp [simulate, hval, hrs]
  · intro i hi
    have hri : i < rs.length := by omega
    have hi' : i < txs.length := by omega
    have hp := forall2_get hfa i hi' hri
    have heq : rs[i] = ⟨txs[i].tx_id, "included", some ((i : Int) + 1), none, none⟩ := by
      rw [processTx_single_ordering b hb hm txs txs[i]] at hp
      have h3 := Except.ok.inj hp
      rw [idxOf_nodup txs hnd i hi'] at h3
      exact h3.symm
    exact ⟨hri, by rw [heq], by rw [heq]⟩

def c6Block : RuleBlock :=
  ⟨"o1", RuleBlockType.ordering, orderingParams (some "FIFO"), ⟨0, 0⟩, []⟩

def c6Txs : List Tx :=
  [⟨"t1", "s1", 10, 1, 0⟩, ⟨"t2", "s2", 20, 2, 0⟩, ⟨"t3", "s3", 30, 3, 0⟩,
   ⟨"t4", "s4", 40, 4, 0⟩, ⟨"t5", "s5", 50, 5, 0⟩]

theorem c6_witness :
    ∃ r, simulate [c6Block] 5 c6Txs = Except.ok r ∧ r.results.length = 5 ∧
      ∀ i (hi : i < 5), ∃ (hri : i < r.results.length),
        r.results[i].position = some ((i : Int) + 1) ∧
        r.results[i].outcome = "included" :=
  c6_fifo_positions c6Block c6Txs (by decide) (by decide) (by decide)
    (by decide) (by decide)

/-- **C7** (confirmed): for every non-filtered transaction of a successful
run, if a Batching block is present the first one is used, the outcome
becomes `"batched"` and `batch_id = (p - 1) // max_batch + 1` (Python floor
division, `Int.fdiv`) where `p` is the ordering position if set, else the
1-based generation index; with no Batching block the outcome stays
`"included"` with no batch id.  (`max_batch` is the first Batching block's
value, defaulted to 50; a zero `max_batch` cannot reach this point, since
the run would have raised instead of returning a report.) -/
theorem c7_batching_batch_id (blocks : List RuleBlock) (n : Nat)
    (txs : List Tx) (i : Nat) (r : SimulationReport)
    (hval : (validate blocks).valid = true)
    (hnd : txs.Nodup) (hi : i < txs.length)
    (hsim : simulate blocks n txs = Except.ok r)
    (hnf : applyFilters blocks txs[i] = none) :
    ∃ (hri : i < r.results.length),
      (∀ bb, blocks.find? (fun b => b.type == RuleBlockType.batching) = some bb →
        r.results[i].outcome = "batched" ∧
        r.results[i].batch_id =
          some (((((applyOrdering blocks txs txs[i]).getD ((i : Int) + 1)) - 1).fdiv
            (bb.params.max_batch.getD 50)) + 1)) ∧
      (blocks.find? (fun b => b.type == RuleBlockType.batching) = none →
        r.results[i].outcome = "included" ∧ r.results[i].batch_id = none) := by
  obtain ⟨rs, hrs, rfl⟩ := simulate_ok_valid blocks n txs r hval hsim
  have hfa := (processAll_ok_iff _ txs rs).mp hrs
  have hlen2 := hfa.length_eq
  have hri : i < rs.length := by omega
  have hp := forall2_get hfa i hi hri
  refine ⟨hri, ?_, ?_⟩
  · intro bb hbb
    by_cases hz : bb.params.max_batch.getD 50 = 0
    · rw [processTx_batching_zero blocks txs txs[i] hnf bb hbb hz] at hp
      exact absurd hp (by simp)
    · rw [processTx_batching blocks txs txs[i] hnf bb hbb hz,
        batchingCurrentPos_eq_getD blocks txs hnd i hi] at hp
      have h3 := Except.ok.inj hp
      simp [← h3]
  · intro hnone
    rw [processTx_no_batching blocks txs txs[i] hnf hnone] at hp
    have h3 := Except.ok.inj hp
    simp [← h3]

def c7Blocks : List RuleBlock :=
  [⟨"bat1", RuleBlockType.batching, batchingParams none (some 2) none, ⟨0, 0⟩, []⟩]

def c7Txs : List Tx :=
  [⟨"t1", "s1", 10, 1, 0⟩, ⟨"t2", "s2", 20, 2, 0⟩, ⟨"t3", "s3", 30, 3, 0⟩]

def c7Report : SimulationReport :=
  ⟨[⟨"t1", "batched", none, some 1, none⟩, ⟨"t2", "batched", none, some 1, none⟩,
    ⟨"t3", "batched", none, some 2, none⟩], 3, 3, 0, []⟩

theorem c7_witness :
    ∃ (hri : 2 < c7Report.results.length),
      (∀ bb, c7Blocks.find? (fun b => b.type == RuleBlockType.batching) = some bb →
        c7Report.results[2].outcome = "batched" ∧
        c7Report.results[2].batch_id =
          some (((((applyOrdering c7Blocks c7Txs c7Txs[2]).getD ((2 : Int) + 1)) - 1).fdiv
            (bb.params.max_batch.getD 50)) + 1)) ∧
      (c7Blocks.find? (fun b => b.type == RuleBlockType.batching) = none →
        c7Report.results[2].outcome = "included" ∧
        c7Report.results[2].batch_id = none) :=
  c7_batching_batch_id c7Blocks 3 c7Txs 2 c7Report (by decide) (by decide)
    (by decide) rfl rfl

/-- Two Filter blocks: the first blacklists `"alice"`, the second has no
conditions at all (every check disabled), so the second (last) Filter
block's own verdict on any transaction is "not filtered". -/
def c1Blocks : List RuleBlock :=
  [⟨"f1", RuleBlockType.filter, filterParams (some ["alice"]) none none none, ⟨0, 0⟩, []⟩,
   ⟨"f2", RuleBlockType.filter, emptyParams, ⟨0, 0⟩, []⟩]

def c1Tx : Tx := ⟨"t1", "alice", 100, 5, 0⟩

/-- **C1, counterexample**: the claim says the filter loop visits all
Filter blocks and the last Filter block's verdict wins.  On `c1Blocks`
(valid: two Filter blocks only warn) and a transaction sent by `"alice"`,
the last Filter block (`f2`) produces no verdict — under the claim the
transaction would end `"included"` — but the code's `break` leaves the
whole block loop at the first match, so the first block's verdict stands:
the result is `"filtered"` with reason `"In blacklist"`. -/
theorem c1_counterexample :
    simulate c1Blocks 1 [c1Tx] =
      Except.ok ⟨[⟨"t1", "filtered", none, none, some "In blacklist"⟩], 1, 0, 1, []⟩ ∧
    specLastFilterVerdict c1Blocks c1Tx = none :=
  ⟨rfl, rfl⟩

/-- **C1, amended** (corrected): the filter stage is first-match-wins, not
last-block-wins: a successful run gives the `i`-th transaction the reason
of the *first* Filter block whose condition matches it (checking blocks in
block order and stopping there), and the transaction is filtered exactly
when some Filter block matches. -/
theorem c1_amended_first_filter_wins (blocks : List RuleBlock) (n : Nat)
    (txs : List Tx) (r : SimulationReport) (i : Nat)
    (hval : (validate blocks).valid = true)
    (hsim : simulate blocks n txs = Except.ok r) (hi : i < txs.length) :
    ∃ (hri : i < r.results.length),
      r.results[i].reason = firstFilterVerdict blocks txs[i] ∧
      (r.results[i].outcome = "filtered" ↔
        (firstFilterVerdict blocks txs[i]).isSome = true) := by
  obtain ⟨rs, hrs, rfl⟩ := simulate_ok_valid blocks n txs r hval hsim
  have hfa := (processAll_ok_iff _ txs rs).mp hrs
  have hlen2 := hfa.length_eq
  have hri : i < rs.length := by omega
  have hp := forall2_get hfa i hi hri
  refine ⟨hri, ?_⟩
  rw [← applyFilters_eq_firstFilterVerdict blocks txs[i]]
  rcases processTx_ok_cases _ _ _ _ hp with ⟨rr, hf, heq⟩ | ⟨hf, bo, hb, heq⟩
  · rw [hf]
    simp [heq]
  · rw [hf]
    rcases applyBatching_ok_cases _ _ _ _ _ hb with ⟨_, rfl⟩ | ⟨bb, _, k, rfl⟩
    · simp [heq]
    · simp [heq]

def c1wBlocks : List RuleBlock :=
  [⟨"f1", RuleBlockType.filter, filterParams (some ["alice"]) none none none, ⟨0, 0⟩, []⟩,
   ⟨"f2", RuleBlockType.filter, emptyParams, ⟨0, 0⟩, []⟩]

def c1wTx : Tx := ⟨"t1", "alice", 100, 5, 0⟩

def c1wReport : SimulationReport :=
  ⟨[⟨"t1", "filtered", none, none, some "In blacklist"⟩], 1, 0, 1, []⟩

theorem c1_amended_witness :
    ∃ (hri : 0 < c1wReport.results.length),
      c1wReport.results[0].reason = firstFilterVerdict c1wBlocks c1wTx ∧
      (c1wReport.results[0].outcome = "filtered" ↔
        (firstFilterVerdict c1wBlocks c1wTx).isSome = true) := by
  have h := c1_amended_first_filter_wins c1wBlocks 1 [c1wTx] c1wReport 0
    (by decide) rfl (by decide)
  exact h

/-! ### Correctness of the DFS cycle scan (for C5)

`cycleCheck` is shown complete: whenever the adjacency relation `adjOf`
has a directed cycle, the scan reports `true`.  The invariant is the
classic one: a finished (visited, off-stack) node has only finished
neighbors, and no finished node lies on a cycle. -/

/-- Nonempty directed reachability along `g`-edges (a path of ≥ 1 edge).
`ReachPos g a a` is a directed cycle through `a`. -/
inductive ReachPos (g : String → List String) : String → String → Prop where
  | single {a b : String} : b ∈ g a → ReachPos g a b
  | tail {a b c : String} : b ∈ g a → ReachPos g b c → ReachPos g a c

/-- Extending a path by one edge at the end. -/
theorem ReachPos.snoc {g : String → List String} {a c d : String}
    (h : ReachPos g a c) (hd : d ∈ g c) : ReachPos g a d := by
  induction h with
  | single hb => exact ReachPos.tail hb (ReachPos.single hd)
  | tail hb _ ih => exact ReachPos.tail hb (ih hd)

/-- The DFS invariant relative to the visited set `V` and the active
recursion stack `R`: every finished node (visited and off-stack) has all
its neighbors finished, and no finished node lies on a cycle. -/
def GoodVR (g : String → List String) (V R : List String) : Prop :=
  (∀ a, a ∈ V → a ∉ R → ∀ b, b ∈ g a → b ∈ V ∧ b ∉ R) ∧
  (∀ a, a ∈ V → a ∉ R → ¬ ReachPos g a a)

/-- A neighbor loop that returns `false` preserves the invariant, only
grows the visited set, and leaves every scanned neighbor finished —
provided the recursive visit (of an unvisited node) does the same. -/
theorem dfsNeighborsWith_false (g : String → List String)
    (visit : String → List String → List String → Bool × List String)
    (hvisit : ∀ (u : String) (V R V2 : List String), GoodVR g V R →
      (∀ x ∈ R, x ∈ V) → u ∉ V → visit u V R = (false, V2) →
      (∀ x ∈ V, x ∈ V2) ∧ u ∈ V2 ∧ GoodVR g V2 R) :
    ∀ (ns V R V2 : List String), GoodVR g V R → (∀ x ∈ R, x ∈ V) →
      dfsNeighborsWith visit ns V R = (false, V2) →
      (∀ x ∈ V, x ∈ V2) ∧ GoodVR g V2 R ∧ (∀ n ∈ ns, n ∈ V2 ∧ n ∉ R) := by
  intro ns
  induction ns with
  | nil =>
    intro V R V2 hg hRV heq
    have hVeq : V = V2 := by simpa [dfsNeighborsWith] using heq
    subst hVeq
    exact ⟨fun x hx => hx, hg, by simp⟩
  | cons nb rest ih =>
    intro V R V2 hg hRV heq
    simp only [dfsNeighborsWith] at heq
    by_cases hnV : nb ∈ V
    · by_cases hnR : nb ∈ R
      · rw [if_pos hnV, if_pos hnR] at heq
        exact absurd heq (by simp)
      · rw [if_pos hnV, if_neg hnR] at heq
        obtain ⟨hm, hgood, hrest⟩ := ih V R V2 hg hRV heq
        refine ⟨hm, hgood, ?_⟩
        intro n hn
        rcases List.mem_cons.mp hn with rfl | hn'
        · exact ⟨hm n hnV, hnR⟩
        · exact hrest n hn'
    · rw [if_neg hnV] at heq
      cases hv : visit nb V R with
      | mk bl v1 =>
        rw [hv] at heq
        cases bl
        · obtain ⟨hm1, hnb1, hg1⟩ := hvisit nb V R v1 hg hRV hnV hv
          have hRV1 : ∀ x ∈ R, x ∈ v1 := fun x hx => hm1 x (hRV x hx)
          obtain ⟨hm2, hgood, hrest⟩ := ih v1 R V2 hg1 hRV1 heq
          refine ⟨fun x hx => hm2 x (hm1 x hx), hgood, ?_⟩
          intro n hn
          rcases List.mem_cons.mp hn with rfl | hn'
          · exact ⟨hm2 n hnb1, fun hR => hnV (hRV n hR)⟩
          · exact hrest n hn'
        · exact absurd heq (by simp)

/-- A visit that returns `false` preserves the invariant (with the visited
node now finished) and only grows the visited set. -/
theorem dfsVisit_false (g : String → List String) :
    ∀ (fuel : Nat) (u : String) (V R V2 : List String),
      GoodVR g V R → (∀ x ∈ R, x ∈ V) → u ∉ V →
      dfsVisit g fuel u V R = (false, V2) →
      (∀ x ∈ V, x ∈ V2) ∧ u ∈ V2 ∧ GoodVR g V2 R := by
  intro fuel
  induction fuel with
  | zero =>
    intro u V R V2 _ _ _ heq
    exact absurd heq (by simp [dfsVisit])
  | succ f ih =>
    intro u V R V2 hg hRV huV heq
    have heq2 : dfsNeighborsWith (fun n v r => dfsVisit g f n v r) (g u)
        (u :: V) (u :: R) = (false, V2) := heq
    have hg2 : GoodVR g (u :: V) (u :: R) := by
      constructor
      · intro a ha haR b hb
        have hau : a ≠ u := fun h => haR (h ▸ List.mem_cons_self u R)
        have haV : a ∈ V := by
          rcases List.mem_cons.mp ha with h | h
          · exact absurd h hau
          · exact h
        have haR0 : a ∉ R := fun h => haR (List.mem_cons_of_mem u h)
        obtain ⟨hbV, hbR⟩ := hg.1 a haV haR0 b hb
        refine ⟨List.mem_cons_of_mem u hbV, ?_⟩
        intro hbuR
        rcases List.mem_cons.mp hbuR with h | h
        · exact huV (h ▸ hbV)
        · exact hbR h
      · intro a ha haR
        have hau : a ≠ u := fun h => haR (h ▸ List.mem_cons_self u R)
        have haV : a ∈ V := by
          rcases List.mem_cons.mp ha with h | h
          · exact absurd h hau
          · exact h
        exact hg.2 a haV (fun h => haR (List.mem_cons_of_mem u h))
    have hRV2 : ∀ x ∈ (u :: R), x ∈ (u :: V) := by
      intro x hx
      rcases List.mem_cons.mp hx with rfl | hx'
      · exact List.mem_cons_self x V
      · exact List.mem_cons_of_mem u (hRV x hx')
    obtain ⟨hm, hgood, hns⟩ := dfsNeighborsWith_false g
      (fun n v r => dfsVisit g f n v r) ih (g u) (u :: V) (u :: R) V2
      hg2 hRV2 heq2
    have huV2 : u ∈ V2 := hm u (List.mem_cons_self u V)
    refine ⟨fun x hx => hm x (List.mem_cons_of_mem u hx), huV2, ?_, ?_⟩
    · intro a haV2 haR b hb
      by_cases hau : a = u
      · subst hau
        obtain ⟨hbV2, hbuR⟩ := hns b hb
        exact ⟨hbV2, fun h => hbuR (List.mem_cons_of_mem a h)⟩
      · have haUR : a ∉ (u :: R) := by
          intro h
          rcases List.mem_cons.mp h with h' | h'
          · exact hau h'
          · exact haR h'
        obtain ⟨hbV2, hbuR⟩ := hgood.1 a haV2 haUR b hb
        exact ⟨hbV2, fun h => hbuR (List.mem_cons_of_mem u h)⟩
    · intro a haV2 haR
      by_cases hau : a = u
      · subst hau
        intro hcyc
        cases hcyc with
        | single hb =>
          obtain ⟨_, hbuR⟩ := hns a hb
          exact hbuR (List.mem_cons_self a R)
        | tail hb hreach =>
          obtain ⟨hbV2, hbuR⟩ := hns _ hb
          exact hgood.2 _ hbV2 hbuR (hreach.snoc hb)
      · have haUR : a ∉ (u :: R) := by
          intro h
          rcases List.mem_cons.mp h with h' | h'
          · exact hau h'
          · exact haR h'
        exact hgood.2 a haV2 haUR

/-- If the whole root loop reports no cycle, there is a final visited set
covering all roots on which the invariant holds with an empty stack: every
root is finished, and no finished node lies on a cycle. -/
theorem cycleLoop_false (g : String → List String) (fuel : Nat) :
    ∀ (ids V : List String), GoodVR g V [] →
      cycleLoop g fuel ids V = false →
      ∃ V2, GoodVR g V2 [] ∧ (∀ x ∈ V, x ∈ V2) ∧ ∀ i ∈ ids, i ∈ V2 := by
  intro ids
  induction ids with
  | nil =>
    intro V hg _
    exact ⟨V, hg, fun x hx => hx, by simp⟩
  | cons j rest ih =>
    intro V hg heq
    simp only [cycleLoop] at heq
    by_cases hjV : j ∈ V
    · rw [if_pos hjV] at heq
      obtain ⟨V2, hgood, hm, hall⟩ := ih V hg heq
      refine ⟨V2, hgood, hm, ?_⟩
      intro i hi
      rcases List.mem_cons.mp hi with rfl | hi2
      · exact hm i hjV
      · exact hall i hi2
    · rw [if_neg hjV] at heq
      cases hv : dfsVisit g fuel j V [] with
      | mk bl v1 =>
        rw [hv] at heq
        cases bl
        · obtain ⟨hm1, hj1, hg1⟩ :=
            dfsVisit_false g fuel j V [] v1 hg (by simp) hjV hv
          obtain ⟨V2, hgood, hm2, hall⟩ := ih v1 hg1 heq
          refine ⟨V2, hgood, fun x hx => hm2 x (hm1 x hx), ?_⟩
          intro i hi
          rcases List.mem_cons.mp hi with rfl | hi2
          · exact hm2 i hj1
          · exact hall i hi2
        · exact absurd heq (by simp)

/-- First-occurrence deduplication preserves membership. -/
theorem mem_dedupFirstAux {α : Type} [DecidableEq α] :
    ∀ (l seen : List α) (a : α), a ∈ l → a ∉ seen →
      a ∈ dedupFirstAux l seen := by
  intro l
  induction l with
  | nil => simp
  | cons x xs ih =>
    intro seen a ha hseen
    simp only [dedupFirstAux]
    by_cases hx : x ∈ seen
    · rw [if_pos hx]
      rcases List.mem_cons.mp ha with rfl | ha2
      · exact absurd hx hseen
      · exact ih seen a ha2 hseen
    · rw [if_neg hx]
      rcases List.mem_cons.mp ha with rfl | ha2
      · exact List.mem_cons_self _ _
      · by_cases hax : a = x
        · subst hax
          exact List.mem_cons_self _ _
        · refine List.mem_cons_of_mem _ (ih (x :: seen) a ha2 ?_)
          intro h
          rcases List.mem_cons.mp h with h' | h'
          · exact hax h'
          · exact hseen h'

theorem mem_dedupFirst {α : Type} [DecidableEq α] (l : List α) (a : α)
    (h : a ∈ l) : a ∈ dedupFirst l :=
  mem_dedupFirstAux l [] a h (by simp)

/-- A node with an outgoing edge is a key of the adjacency dict, i.e. one
of the block ids. -/
theorem adjOf_ne_nil_mem (blocks : List RuleBlock) (a : String)
    (h : adjOf blocks a ≠ []) : a ∈ blocks.map RuleBlock.id := by
  unfold adjOf at h
  cases hf : blocks.reverse.find? (fun b => b.id == a) with
  | none => rw [hf] at h; exact absurd rfl h
  | some b =>
    have hmem : b ∈ blocks.reverse := List.mem_of_find?_eq_some hf
    have hid : b.id = a := by simpa using List.find?_some hf
    rw [← hid]
    exact List.mem_map_of_mem _ (List.mem_reverse.mp hmem)

/-- The start of any nonempty path is a block id. -/
theorem reachPos_start_mem_ids (blocks : List RuleBlock) (a c : String)
    (h : ReachPos (adjOf blocks) a c) : a ∈ blocks.map RuleBlock.id := by
  cases h with
  | single hb =>
    refine adjOf_ne_nil_mem blocks a ?_
    intro h0
    rw [h0] at hb
    exact absurd hb (by simp)
  | tail hb _ =>
    refine adjOf_ne_nil_mem blocks a ?_
    intro h0
    rw [h0] at hb
    exact absurd hb (by simp)

/-- Completeness of the DFS cycle scan: a directed cycle in the adjacency
relation is always detected. -/
theorem cycleCheck_complete (blocks : List RuleBlock)
    (h : ∃ a, ReachPos (adjOf blocks) a a) : cycleCheck blocks = true := by
  obtain ⟨a, ha⟩ := h
  cases hcc : cycleCheck blocks with
  | true => rfl
  | false =>
    exfalso
    have hfalse2 : cycleLoop (adjOf blocks)
        ((blocks.map RuleBlock.id ++ (blocks.map RuleBlock.connections).flatten).length + 1)
        (dedupFirst (blocks.map RuleBlock.id)) [] = false := by
      simpa [cycleCheck] using hcc
    obtain ⟨V2, hgood, _, hall⟩ := cycleLoop_false (adjOf blocks) _ _ []
      ⟨by simp, by simp⟩ hfalse2
    have haids : a ∈ dedupFirst (blocks.map RuleBlock.id) :=
      mem_dedupFirst _ a (reachPos_start_mem_ids blocks a a ha)
    exact hgood.2 a (hall a haids) (by simp) ha

/-! ### The cycle conflict appears exactly once (for C5)

No other validator phase can produce the string
`"Circular dependency detected in rule chain"`: every other conflict
message starts with a different character. -/

/-- Strings with different first characters differ. -/
theorem ne_of_data_head (s t : String) (c d : Char)
    (hs : s.data.head? = some c) (ht : t.data.head? = some d) (hcd : c ≠ d) :
    s ≠ t := by
  intro h
  rw [h] at hs
  rw [hs] at ht
  exact hcd (Option.some.inj ht)

theorem danglingMsg_head (bid cid : String) :
    (danglingMsg bid cid).data.head? = some 'B' := by
  unfold danglingMsg
  simp only [String.data_append]
  rfl

theorem overlapMsg_head (bid : String) (ov : List String) :
    (overlapMsg bid ov).data.head? = some 'F' := by
  unfold overlapMsg
  simp only [String.data_append]
  rfl

theorem minMaxMsg_head (bid : String) (mn mx : Int) :
    (minMaxMsg bid mn mx).data.head? = some 'B' := by
  unfold minMaxMsg
  simp only [String.data_append]
  rfl

theorem count_cycleMsg_dangling (blocks : List RuleBlock) :
    (danglingConflicts blocks).count cycleMsg = 0 := by
  rw [List.count_eq_zero]
  intro hmem
  unfold danglingConflicts at hmem
  rw [List.mem_flatten] at hmem
  obtain ⟨l, hl, hmem2⟩ := hmem
  rw [List.mem_map] at hl
  obtain ⟨b, _, rfl⟩ := hl
  rw [List.mem_map] at hmem2
  obtain ⟨cid, _, heq⟩ := hmem2
  exact ne_of_data_head _ _ 'B' 'C' (danglingMsg_head b.id cid)
    (by decide) (by decide) heq

theorem count_cycleMsg_om (blocks : List RuleBlock) :
    (orderingMatchingConflicts blocks).count cycleMsg = 0 := by
  rw [List.count_eq_zero]
  intro hmem
  unfold orderingMatchingConflicts at hmem
  rw [List.mem_flatten] at hmem
  obtain ⟨l, hl, hmem2⟩ := hmem
  rw [List.mem_map] at hl
  obtain ⟨ob, _, rfl⟩ := hl
  rw [List.mem_filterMap] at hmem2
  obtain ⟨mb, _, heq⟩ := hmem2
  split at heq
  · exact (by decide : proRataClobMsg ≠ cycleMsg) (Option.some.inj heq)
  · exact absurd heq (by simp)

theorem filterOverlapConflictOf_shape (bid : String) (bl wl : List String)
    (s : String) (h : filterOverlapConflictOf bid bl wl = some s) :
    ∃ ov, s = overlapMsg bid ov := by
  unfold filterOverlapConflictOf at h
  split at h
  · split at h
    · exact ⟨_, (Option.some.inj h).symm⟩
    · exact absurd h (by simp)
  · exact absurd h (by simp)

theorem count_cycleMsg_fo (blocks : List RuleBlock) :
    (filterOverlapConflicts blocks).count cycleMsg = 0 := by
  rw [List.count_eq_zero]
  intro hmem
  unfold filterOverlapConflicts at hmem
  rw [List.mem_filterMap] at hmem
  obtain ⟨b, _, heq⟩ := hmem
  split at heq
  · obtain ⟨ov, hx⟩ := filterOverlapConflictOf_shape _ _ _ _ heq
    exact ne_of_data_head _ _ 'F' 'C' (overlapMsg_head b.id ov)
      (by decide) (by decide) hx.symm
  · exact absurd heq (by simp)

theorem batchingConflictOf_shape (bid : String) (mn mx : Int) (s : String)
    (h : batchingConflictOf bid mn mx = some s) : s = minMaxMsg bid mn mx := by
  unfold batchingConflictOf at h
  split at h
  · exact (Option.some.inj h).symm
  · exact absurd h (by simp)

theorem count_cycleMsg_bc (blocks : List RuleBlock) :
    (batchingConflicts blocks).count cycleMsg = 0 := by
  rw [List.count_eq_zero]
  intro hmem
  unfold batchingConflicts at hmem
  rw [List.mem_filterMap] at hmem
  obtain ⟨b, _, heq⟩ := hmem
  split at heq
  · have hx := batchingConflictOf_shape _ _ _ _ heq
    exact ne_of_data_head _ _ 'B' 'C'
      (minMaxMsg_head b.id (b.params.min_batch.getD 1) (b.params.max_batch.getD 50))
      (by decide) (by decide) hx.symm
  · exact absurd heq (by simp)

/-- **C5** (confirmed): whenever the directed connection graph has a cycle
(a nonempty path from some node back to itself in the adjacency built from
the blocks), `validate` reports `cycle_detected = true` and its conflict
list contains the message "Circular dependency detected in rule chain"
exactly once, however many cycles exist. -/
theorem c5_cycle_detected_one_conflict (blocks : List RuleBlock)
    (h : ∃ a, ReachPos (adjOf blocks) a a) :
    (validate blocks).cycle_detected = true ∧
    (validate blocks).conflicts.count cycleMsg = 1 := by
  have hcc := cycleCheck_complete blocks h
  obtain ⟨a, ha⟩ := h
  have hne : blocks ≠ [] := by
    intro h0
    subst h0
    have := reachPos_start_mem_ids [] a a ha
    simp at this
  constructor
  · simp [validate, if_neg hne, hcc]
  · simp only [validate, if_neg hne, hcc, if_true]
    rw [List.count_append, List.count_append, List.count_append,
      List.count_append]
    rw [count_cycleMsg_dangling, count_cycleMsg_om, count_cycleMsg_fo,
      count_cycleMsg_bc]
    decide

/-- Two blocks `A → B → A` (the spec's own example of a cyclic graph). -/
def c5Blocks : List RuleBlock :=
  [⟨"A", RuleBlockType.ordering, emptyParams, ⟨0, 0⟩, ["B"]⟩,
   ⟨"B", RuleBlockType.ordering, emptyParams, ⟨0, 0⟩, ["A"]⟩]

theorem c5_witness :
    (validate c5Blocks).cycle_detected = true ∧
    (validate c5Blocks).conflicts.count cycleMsg = 1 :=
  c5_cycle_detected_one_conflict c5Blocks
    ⟨"A", @ReachPos.tail (adjOf c5Blocks) "A" "B" "A" (by decide)
      (@ReachPos.single (adjOf c5Blocks) "B" "A" (by decide))⟩

end Kazt
